import Mathlib

/-!
# water-hero ingest: chunked backfill and line-protocol encoding

A shallow embedding of `cmd/main.go` (`fetchReadings`, `sendToQuestDB`, `backfill`)
and theorems about the chunking loop and the record-to-wire encoder.

Modelling conventions.

* `time.Time` is an instant, an integer number of nanoseconds since the Unix epoch;
  `time.Duration` is an integer number of nanoseconds. `Add`, `Before`, `After` are
  `+`, `<`, `>` on instants (no time of the program is near the ends of the
  representable range of `time.Time`).
* The standard library and the outside world are a parameter `World`: time
  formatting, JSON decoding, the HTTP round trip, the TCP dial and the TCP write.
  The outcome of an HTTP round trip, a dial or a write may depend on the request and
  on when it is made; `backfill` makes at most one of each per loop iteration, so the
  moment is the number of the iteration (`tick`).
* Every externally visible action is appended to a trace of `Event`s.
* The counter `totalReadings` (a Go `int`) is an integer without wrap-around: it only
  grows by the length of a slice held in memory.
* The `for` loop of `backfill` is run with fuel: one unit per iteration.
-/

namespace WaterHero

/-! ## Data model -/

/-- An instant: nanoseconds since the Unix epoch (`time.Time`). -/
abbrev Time := Int

/-- A signed span in nanoseconds (`time.Duration`). -/
abbrev Duration := Int

/-- The constant `time.Millisecond`. -/
def Millisecond : Duration := 1000000

/-- The constant `time.Hour`. -/
def Hour : Duration := 3600000000000

/-- The Go method `Time.UnixMilli`: `unixSec*1e3 + nsec/1e6`, where `unixSec` is the
number of whole seconds (rounded down) and `nsec` the non-negative remainder. -/
def UnixMilli (t : Time) : Int :=
  (t / 1000000000) * 1000 + (t % 1000000000) / 1000000

/-- The struct `Config`. -/
structure Config where
  DeviceID : String
  Email : String
  SessionCookie : String
  QuestDBAddr : String
deriving DecidableEq, Repr

/-- The struct `Reading`: `P` timestamp ms, `U` uptime ms, `W` device/meter id,
`G` total gallons, `T` temperature F. -/
structure Reading where
  P : String
  U : String
  W : String
  G : String
  T : String
deriving DecidableEq, Repr

/-- The struct `ReadingPayload`. -/
structure ReadingPayload where
  Readings : List Reading
  Success : Bool
  Code : Int
deriving DecidableEq, Repr

/-- The struct `APIRequest`. -/
structure APIRequest where
  DeviceID : String
  Email : String
  From : Int
  To : Int
deriving DecidableEq, Repr

/-- An HTTP request as built by `fetchReadings`; the body is the `APIRequest` that
`json.Marshal` serialises. -/
structure HttpRequest where
  method : String
  url : String
  headers : List (String × String)
  body : APIRequest
deriving DecidableEq, Repr

/-- A Go `error`, identified with its message. -/
abbrev Error := String

/-! ## Formatting (`fmt`) -/

/-- An operand of a formatting call. -/
inductive Arg where
  | str (s : String)
  | int (n : Int)
deriving DecidableEq, Repr

/-- Rendering of one operand under the verb `v`: `%s`, `%v` and `%w` print a string
operand as it is, `%d` and `%v` print an integer in decimal; a verb that does not fit
its operand is reported the way `fmt` does. -/
def formatArg (v : Char) : Arg → List Char
  | .str s =>
    if v = 's' ∨ v = 'v' ∨ v = 'w' then s.toList
    else '%' :: '!' :: v :: ("(string=".toList ++ s.toList ++ [')'])
  | .int n =>
    if v = 'd' ∨ v = 'v' then (toString n).toList
    else '%' :: '!' :: v :: ("(int=".toList ++ (toString n).toList ++ [')'])

/-- The format interpreter behind `fmt.Sprintf`, `fmt.Fprintf`, `fmt.Printf` and
`fmt.Errorf`, for verbs without flags: literal characters are copied, `%%` is a
percent sign, `%v` consumes the next operand. -/
def sprintfAux : List Char → List Arg → List Char
  | [], _ => []
  | [c], _ => if c = '%' then "%!(NOVERB)".toList else [c]
  | c :: v :: rest, args =>
    if c = '%' then
      if v = '%' then '%' :: sprintfAux rest args
      else
        match args with
        | [] => '%' :: '!' :: v :: ("(MISSING)".toList ++ sprintfAux rest [])
        | a :: args => formatArg v a ++ sprintfAux rest args
    else c :: sprintfAux (v :: rest) args

/-- The Go function `fmt.Sprintf`. -/
def Sprintf (format : String) (args : List Arg) : String :=
  String.mk (sprintfAux format.toList args)

/-! ## The outside world -/

/-- Library functions and remote parties.

* `format layout t` is `t.Format(layout)`;
* `unmarshal body` is `json.Unmarshal(body, &payload)`: the decoded payload or the
  decoder's error;
* `httpDo tick req` is `http.DefaultClient.Do(req)` followed by `io.ReadAll` of the
  response body: the body or the transport error;
* `dial tick addr` is `net.Dial("tcp", addr)`: `none` when the connection opens;
* `write tick bytes` is `conn.Write(bytes)`: `none` when the write succeeds. -/
structure World where
  format : String → Time → String
  unmarshal : String → Except Error ReadingPayload
  httpDo : Nat → HttpRequest → Except Error String
  dial : Nat → String → Option Error
  write : Nat → String → Option Error

/-- An externally visible action. -/
inductive Event where
  /-- Text sent to standard output by `fmt.Printf`. -/
  | print (text : String)
  /-- A call `fetchReadings(cfg, from, to)` and the HTTP request it sends. -/
  | fetch (from_ to_ : Time) (req : HttpRequest)
  /-- A call `net.Dial("tcp", addr)`. -/
  | dial (addr : String)
  /-- A call `conn.Write(bytes)`. -/
  | write (bytes : String)
  /-- The deferred `conn.Close()`. -/
  | close
  /-- A call `time.Sleep(d)`. -/
  | sleep (d : Duration)
deriving DecidableEq, Repr

/-! ## `fetchReadings` -/

/-- The request built by `fetchReadings`. -/
def buildRequest (cfg : Config) (from_ to_ : Time) : HttpRequest :=
  { method := "POST"
    url := "https://mywaterhero.net/get/readings"
    headers :=
      [("Content-Type", "application/json"),
       ("Cookie", Sprintf "connect.sid=%s" [.str cfg.SessionCookie]),
       ("Origin", "https://mywaterhero.net"),
       ("X-Requested-With", "XMLHttpRequest")]
    body :=
      { DeviceID := cfg.DeviceID
        Email := cfg.Email
        From := UnixMilli from_
        To := UnixMilli to_ } }

/-- The function `fetchReadings`: the readings of the response, or the transport
error, or a parse error that quotes the body. -/
def fetchReadings (w : World) (tick : Nat) (cfg : Config) (from_ to_ : Time) :
    Except Error (List Reading) :=
  match w.httpDo tick (buildRequest cfg from_ to_) with
  | .error err => .error err
  | .ok respBody =>
    match w.unmarshal respBody with
    | .error err =>
      .error (Sprintf "parse error: %w, body: %s" [.str err, .str respBody])
    | .ok payload => .ok payload.Readings

/-! ## `sendToQuestDB` -/

/-- One pass of the encoding loop body: the line of a reading. -/
def encodeLine (r : Reading) : String :=
  Sprintf "water_readings,device_id=%s total_gallons=%si,temp_f=%si,uptime=%si %s000000\n"
    [.str r.W, .str r.G, .str r.T, .str r.U, .str r.P]

/-- The encoding loop of `sendToQuestDB`: every reading's line is appended to the
buffer, in order. -/
def encodeReadings (readings : List Reading) : String :=
  readings.foldl (fun buf r => buf ++ encodeLine r) ""

/-- The function `sendToQuestDB`: the events it causes and the error it returns
(`none` for `nil`). -/
def sendToQuestDB (w : World) (tick : Nat) (cfg : Config) (readings : List Reading) :
    List Event × Option Error :=
  if readings.length = 0 then ([], none)
  else
    match w.dial tick cfg.QuestDBAddr with
    | some err => ([.dial cfg.QuestDBAddr], some err)
    | none =>
      let buf := encodeReadings readings
      ([.dial cfg.QuestDBAddr, .write buf, .close], w.write tick buf)

/-! ## `backfill` -/

/-- The local variables of `backfill` at the head of the loop, the number of
iterations completed and the trace so far. -/
structure LoopState where
  current : Time
  totalReadings : Int
  tick : Nat
  trace : List Event
deriving DecidableEq, Repr

/-- A finished call of `backfill`: the returned error (`none` for `nil`) and the
state it returned in. -/
structure Run where
  err : Option Error
  final : LoopState
deriving DecidableEq, Repr

/-- What running the loop with bounded fuel gives: the finished call, or the state
at the head of the loop when the fuel ran out with the loop condition still true. -/
inductive Outcome where
  | returned (run : Run)
  | unfinished (st : LoopState)
deriving DecidableEq, Repr

/-- The end of the chunk that starts at `current`. -/
def chunkEndOf (current end_ : Time) (chunkSize : Duration) : Time :=
  let chunkEnd := current + chunkSize
  if chunkEnd > end_ then end_ else chunkEnd

/-- The text printed before a chunk is fetched. -/
def fetchingText (w : World) (current chunkEnd : Time) : String :=
  Sprintf "fetching %s to %s... "
    [.str (w.format "2006-01-02 15:04" current), .str (w.format "2006-01-02 15:04" chunkEnd)]

/-- The `for` loop of `backfill` and the code after it. -/
def backfillLoop (w : World) (cfg : Config) (end_ : Time) (chunkSize : Duration) :
    Nat → LoopState → Outcome
  | 0, st =>
    if st.current < end_ then .unfinished st
    else
      .returned
        { err := none
          final :=
            { st with
              trace := st.trace ++
                [.print (Sprintf "backfill complete: %d total readings\n"
                  [.int st.totalReadings])] } }
  | fuel + 1, st =>
    if st.current < end_ then
      let chunkEnd := chunkEndOf st.current end_ chunkSize
      let tr1 := st.trace ++
        [.print (fetchingText w st.current chunkEnd),
         .fetch st.current chunkEnd (buildRequest cfg st.current chunkEnd)]
      match fetchReadings w st.tick cfg st.current chunkEnd with
      | .error err =>
        .returned
          { err := some (Sprintf "fetch error for chunk starting %s: %w"
              [.str (w.format "2006-01-02T15:04:05Z07:00" st.current), .str err])
            final := { st with trace := tr1 } }
      | .ok readings =>
        let tr2 := tr1 ++ [.print (Sprintf "%d readings\n" [.int readings.length])]
        match sendToQuestDB w st.tick cfg readings with
        | (evs, some err) =>
          .returned
            { err := some (Sprintf "questdb error for chunk starting %s: %w"
                [.str (w.format "2006-01-02T15:04:05Z07:00" st.current), .str err])
              final := { st with trace := tr2 ++ evs } }
        | (evs, none) =>
          backfillLoop w cfg end_ chunkSize fuel
            { current := chunkEnd
              totalReadings := st.totalReadings + readings.length
              tick := st.tick + 1
              trace := tr2 ++ evs ++ [.sleep (500 * Millisecond)] }
    else
      .returned
        { err := none
          final :=
            { st with
              trace := st.trace ++
                [.print (Sprintf "backfill complete: %d total readings\n"
                  [.int st.totalReadings])] } }

/-- The function `backfill`, run for at most `fuel` iterations. -/
def backfill (w : World) (cfg : Config) (start end_ : Time) (chunkSize : Duration)
    (fuel : Nat) : Outcome :=
  backfillLoop w cfg end_ chunkSize fuel
    { current := start, totalReadings := 0, tick := 0, trace := [] }

/-! ## `main`: the chunk size passed to `backfill` -/

/-- Conversion to `int64` with wrap-around. -/
def wrapInt64 (x : Int) : Int :=
  (x + 9223372036854775808) % 18446744073709551616 - 9223372036854775808

/-- The expression `time.Duration(*chunkHours) * time.Hour` of `main`: the value of
the `-chunk` flag is used as it is, whatever its sign. -/
def chunkSizeOfFlag (chunkHours : Int) : Duration :=
  wrapInt64 (wrapInt64 chunkHours * Hour)

/-! ## Vocabulary for the statements -/

/-- The cursor (`current`) at the head of the loop after `k` completed iterations. -/
def cursorAt (start end_ : Time) (chunkSize : Duration) : Nat → Time
  | 0 => start
  | k + 1 => chunkEndOf (cursorAt start end_ chunkSize k) end_ chunkSize

/-- The result of the fetch of iteration `i`. -/
def fetchAt (w : World) (cfg : Config) (start end_ : Time) (chunkSize : Duration)
    (i : Nat) : Except Error (List Reading) :=
  fetchReadings w i cfg (cursorAt start end_ chunkSize i) (cursorAt start end_ chunkSize (i + 1))

/-- The readings fetched in iteration `i` (none when the fetch fails). -/
def readingsAt (w : World) (cfg : Config) (start end_ : Time) (chunkSize : Duration)
    (i : Nat) : List Reading :=
  match fetchAt w cfg start end_ chunkSize i with
  | .ok readings => readings
  | .error _ => []

/-- Iteration `i` goes through: its fetch and its sink write both succeed. -/
def CycleOk (w : World) (cfg : Config) (start end_ : Time) (chunkSize : Duration)
    (i : Nat) : Prop :=
  (∃ readings, fetchAt w cfg start end_ chunkSize i = .ok readings) ∧
    (sendToQuestDB w i cfg (readingsAt w cfg start end_ chunkSize i)).2 = none

/-- The events of one iteration that goes through, in order: the progress text, the
fetch, the count text, what `sendToQuestDB` does, the pause. -/
def cycleEvents (w : World) (cfg : Config) (tick : Nat) (current chunkEnd : Time)
    (readings : List Reading) : List Event :=
  [.print (fetchingText w current chunkEnd),
   .fetch current chunkEnd (buildRequest cfg current chunkEnd),
   .print (Sprintf "%d readings\n" [.int readings.length])] ++
    (sendToQuestDB w tick cfg readings).1 ++ [.sleep (500 * Millisecond)]

/-- The events of iteration `i` of a run. -/
def cycleAt (w : World) (cfg : Config) (start end_ : Time) (chunkSize : Duration)
    (i : Nat) : List Event :=
  cycleEvents w cfg i (cursorAt start end_ chunkSize i) (cursorAt start end_ chunkSize (i + 1))
    (readingsAt w cfg start end_ chunkSize i)

/-- The state at the head of the loop after `k` iterations that went through. -/
def stateAfter (w : World) (cfg : Config) (start end_ : Time) (chunkSize : Duration)
    (k : Nat) : LoopState :=
  { current := cursorAt start end_ chunkSize k
    totalReadings :=
      (((List.range k).map fun i => (readingsAt w cfg start end_ chunkSize i).length).sum : Nat)
    tick := k
    trace := (List.range k).flatMap (cycleAt w cfg start end_ chunkSize) }

/-- The number of chunks of `[start, end_)` for a positive chunk size:
`(end_ - start)/chunkSize` rounded up. -/
def numChunks (start end_ : Time) (chunkSize : Duration) : Nat :=
  ((end_ - start + chunkSize - 1) / chunkSize).toNat

/-- The `(from, to)` arguments of the calls of `fetchReadings` in a trace, in order. -/
def fetchCalls : List Event → List (Time × Time)
  | [] => []
  | .fetch a b _ :: evs => (a, b) :: fetchCalls evs
  | _ :: evs => fetchCalls evs

/-- The HTTP requests sent in a trace, in order. -/
def requests : List Event → List HttpRequest
  | [] => []
  | .fetch _ _ req :: evs => req :: requests evs
  | _ :: evs => requests evs

/-- The addresses dialled in a trace, in order. -/
def dials : List Event → List String
  | [] => []
  | .dial addr :: evs => addr :: dials evs
  | _ :: evs => dials evs

/-- The payloads written to the sink in a trace, in order. -/
def writes : List Event → List String
  | [] => []
  | .write bytes :: evs => bytes :: writes evs
  | _ :: evs => writes evs

/-- The pauses of a trace, in order. -/
def sleeps : List Event → List Duration
  | [] => []
  | .sleep d :: evs => d :: sleeps evs
  | _ :: evs => sleeps evs

/-- The value of a decimal digit. -/
def digitValue (c : Char) : Option Nat :=
  if '0' ≤ c ∧ c ≤ '9' then some (c.toNat - '0'.toNat) else none

/-- The number a non-empty string of decimal digits denotes; `none` for anything
else (a sign, a blank, the empty string). -/
def decimalValue : List Char → Option Nat
  | [] => none
  | c :: cs => (c :: cs).foldlM (fun n d => (digitValue d).map fun v => n * 10 + v) 0

/-- The characters after the last blank. -/
def lastField (cs : List Char) : List Char :=
  cs.foldl (fun acc c => if c = ' ' then [] else acc ++ [c]) []

/-- The timestamp token of a line: what stands between the last blank and the final
newline. -/
def timestampToken (line : String) : List Char :=
  lastField line.toList.dropLast

/-- The state a bounded run stopped in. -/
def Outcome.state : Outcome → LoopState
  | .returned run => run.final
  | .unfinished st => st

/-! ## Sample worlds -/

/-- A world in which every request is answered with one reading and the sink takes
every payload. -/
def calmWorld : World :=
  { format := fun _ t => toString t
    unmarshal := fun _ =>
      .ok { Readings := [{ P := "1700000000000", U := "999", W := "ABC123", G := "1500", T := "72" }]
            Success := true
            Code := 0 }
    httpDo := fun _ _ => .ok "body"
    dial := fun _ _ => none
    write := fun _ _ => none }

/-- The world `calmWorld`, except that the request of iteration `failAt` is refused. -/
def stormWorld (failAt : Nat) : World :=
  { format := fun _ t => toString t
    unmarshal := fun _ =>
      .ok { Readings := [{ P := "1700000000000", U := "999", W := "ABC123", G := "1500", T := "72" }]
            Success := true
            Code := 0 }
    httpDo := fun tick _ => if tick = failAt then .error "connection refused" else .ok "body"
    dial := fun _ _ => none
    write := fun _ _ => none }

/-- A configuration with the default sink address. -/
def sampleConfig : Config :=
  { DeviceID := "device", Email := "user@example.org", SessionCookie := "sid",
    QuestDBAddr := "localhost:9009" }

/-! ## The encoder -/

theorem encodeReadings_foldl (buf : String) (readings : List Reading) :
    readings.foldl (fun buf r => buf ++ encodeLine r) buf =
      buf ++ String.join (readings.map encodeLine) := by
  induction readings generalizing buf with
  | nil => apply String.ext; simp
  | cons r rs ih =>
    simp only [List.foldl_cons, List.map_cons, ih]
    apply String.ext
    simp

theorem encodeReadings_eq_join (readings : List Reading) :
    encodeReadings readings = String.join (readings.map encodeLine) := by
  unfold encodeReadings
  rw [encodeReadings_foldl]
  apply String.ext
  simp

theorem encodeLine_eq (r : Reading) :
    encodeLine r =
      "water_readings,device_id=" ++ r.W ++ " total_gallons=" ++ r.G ++ "i,temp_f=" ++ r.T ++
        "i,uptime=" ++ r.U ++ "i " ++ r.P ++ "000000" ++ "\n" := by
  apply String.ext
  simp [encodeLine, Sprintf, sprintfAux, formatArg]

theorem encodeLine_getLast (r : Reading) : (encodeLine r).toList.getLast? = some '\n' := by
  rw [encodeLine_eq, String.toList, String.data_append]
  exact List.getLast?_concat _

/-! ## The loop, one iteration at a time -/

/-- The text printed when the loop is over. -/
theorem backfillLoop_exit (w : World) (cfg : Config) (end_ : Time) (chunkSize : Duration)
    (fuel : Nat) (st : LoopState) (h : ¬ st.current < end_) :
    backfillLoop w cfg end_ chunkSize fuel st =
      .returned
        { err := none
          final :=
            { st with
              trace := st.trace ++
                [.print (Sprintf "backfill complete: %d total readings\n"
                  [.int st.totalReadings])] } } := by
  cases fuel <;> simp [backfillLoop, h]

theorem backfillLoop_zero_lt (w : World) (cfg : Config) (end_ : Time) (chunkSize : Duration)
    (st : LoopState) (h : st.current < end_) :
    backfillLoop w cfg end_ chunkSize 0 st = .unfinished st := by
  simp [backfillLoop, h]

theorem backfillLoop_succ_ok (w : World) (cfg : Config) (end_ : Time) (chunkSize : Duration)
    (fuel : Nat) (st : LoopState) (readings : List Reading) (hlt : st.current < end_)
    (hf : fetchReadings w st.tick cfg st.current (chunkEndOf st.current end_ chunkSize) =
      .ok readings)
    (hs : (sendToQuestDB w st.tick cfg readings).2 = none) :
    backfillLoop w cfg end_ chunkSize (fuel + 1) st =
      backfillLoop w cfg end_ chunkSize fuel
        { current := chunkEndOf st.current end_ chunkSize
          totalReadings := st.totalReadings + readings.length
          tick := st.tick + 1
          trace := st.trace ++
            cycleEvents w cfg st.tick st.current (chunkEndOf st.current end_ chunkSize)
              readings } := by
  rw [backfillLoop]
  simp only [hlt, if_true, hf]
  rcases hsend : sendToQuestDB w st.tick cfg readings with ⟨evs, e⟩
  rw [hsend] at hs
  simp only at hs
  subst hs
  simp [cycleEvents, hsend]

theorem backfillLoop_succ_fetch_error (w : World) (cfg : Config) (end_ : Time)
    (chunkSize : Duration) (fuel : Nat) (st : LoopState) (err : Error)
    (hlt : st.current < end_)
    (hf : fetchReadings w st.tick cfg st.current (chunkEndOf st.current end_ chunkSize) =
      .error err) :
    backfillLoop w cfg end_ chunkSize (fuel + 1) st =
      .returned
        { err := some (Sprintf "fetch error for chunk starting %s: %w"
            [.str (w.format "2006-01-02T15:04:05Z07:00" st.current), .str err])
          final :=
            { st with
              trace := st.trace ++
                [.print (fetchingText w st.current (chunkEndOf st.current end_ chunkSize)),
                 .fetch st.current (chunkEndOf st.current end_ chunkSize)
                   (buildRequest cfg st.current (chunkEndOf st.current end_ chunkSize))] } } := by
  rw [backfillLoop]
  simp only [hlt, if_true, hf]

theorem readingsAt_of_ok {w : World} {cfg : Config} {start end_ : Time} {chunkSize : Duration}
    {i : Nat} {readings : List Reading}
    (h : fetchAt w cfg start end_ chunkSize i = .ok readings) :
    readingsAt w cfg start end_ chunkSize i = readings := by
  simp [readingsAt, h]

theorem stateAfter_succ (w : World) (cfg : Config) (start end_ : Time) (chunkSize : Duration)
    (k : Nat) :
    stateAfter w cfg start end_ chunkSize (k + 1) =
      { current := chunkEndOf (stateAfter w cfg start end_ chunkSize k).current end_ chunkSize
        totalReadings := (stateAfter w cfg start end_ chunkSize k).totalReadings +
          (readingsAt w cfg start end_ chunkSize k).length
        tick := (stateAfter w cfg start end_ chunkSize k).tick + 1
        trace := (stateAfter w cfg start end_ chunkSize k).trace ++
          cycleAt w cfg start end_ chunkSize k } := by
  simp [stateAfter, cursorAt, List.range_succ, List.flatMap_append]

/-- The loop runs through every iteration that goes through. -/
theorem backfillLoop_iterations (w : World) (cfg : Config) (start end_ : Time)
    (chunkSize : Duration) (k : Nat)
    (h : ∀ i, i < k → cursorAt start end_ chunkSize i < end_ ∧ CycleOk w cfg start end_ chunkSize i)
    (fuel : Nat) :
    backfill w cfg start end_ chunkSize (fuel + k) =
      backfillLoop w cfg end_ chunkSize fuel (stateAfter w cfg start end_ chunkSize k) := by
  induction k generalizing fuel with
  | zero => simp [backfill, stateAfter, cursorAt]
  | succ k ih =>
    have hk := h k (Nat.lt_succ_self k)
    obtain ⟨hlt, ⟨readings, hf⟩, hs⟩ := hk
    have e : fuel + (k + 1) = (fuel + 1) + k := by omega
    rw [e, ih (fun i hi => h i (Nat.lt_succ_of_lt hi)) (fuel + 1)]
    rw [readingsAt_of_ok hf] at hs
    rw [backfillLoop_succ_ok w cfg end_ chunkSize fuel
      (stateAfter w cfg start end_ chunkSize k) readings hlt hf hs, stateAfter_succ,
      readingsAt_of_ok hf]
    simp [cycleAt, stateAfter, cursorAt, readingsAt_of_ok hf]

/-! ## Cursor arithmetic -/

theorem chunkEndOf_eq_min (current end_ : Time) (chunkSize : Duration) :
    chunkEndOf current end_ chunkSize = min (current + chunkSize) end_ := by
  unfold chunkEndOf Time Duration at *
  simp only [gt_iff_lt]
  split <;> omega

theorem cursorAt_eq_min (start end_ : Time) (chunkSize : Duration) (hle : start ≤ end_)
    (hsize : 0 < chunkSize) (k : Nat) :
    cursorAt start end_ chunkSize k = min (start + k * chunkSize) end_ := by
  induction k with
  | zero => simp [cursorAt, hle]
  | succ k ih =>
    rw [cursorAt, ih, chunkEndOf_eq_min]
    push_cast
    have : start + (↑k + 1) * chunkSize = start + ↑k * chunkSize + chunkSize := by ring
    rw [this]
    unfold Time Duration at *
    omega

theorem lt_numChunks_iff (start end_ : Time) (chunkSize : Duration) (hsize : 0 < chunkSize)
    (i : Nat) : i < numChunks start end_ chunkSize ↔ start + i * chunkSize < end_ := by
  unfold numChunks
  rw [Int.lt_toNat, Int.lt_iff_add_one_le, Int.le_ediv_iff_mul_le hsize]
  unfold Time Duration at *
  constructor <;> intro h <;> nlinarith

theorem cursorAt_lt (start end_ : Time) (chunkSize : Duration) (hle : start ≤ end_)
    (hsize : 0 < chunkSize) (i : Nat) (hi : i < numChunks start end_ chunkSize) :
    cursorAt start end_ chunkSize i = start + i * chunkSize ∧
      cursorAt start end_ chunkSize i < end_ := by
  have h := (lt_numChunks_iff start end_ chunkSize hsize i).mp hi
  rw [cursorAt_eq_min start end_ chunkSize hle hsize]
  unfold Time Duration at *
  omega

theorem cursorAt_numChunks (start end_ : Time) (chunkSize : Duration) (hle : start ≤ end_)
    (hsize : 0 < chunkSize) :
    cursorAt start end_ chunkSize (numChunks start end_ chunkSize) = end_ := by
  have h := (lt_numChunks_iff start end_ chunkSize hsize (numChunks start end_ chunkSize)).not.mp
    (lt_irrefl _)
  rw [cursorAt_eq_min start end_ chunkSize hle hsize]
  unfold Time Duration at *
  omega

theorem numChunks_eq_ceil (start end_ : Time) (chunkSize : Duration) (hle : start ≤ end_)
    (hsize : 0 < chunkSize) :
    (numChunks start end_ chunkSize : Int) = ⌈((end_ - start : Int) : ℚ) / (chunkSize : ℚ)⌉ := by
  symm
  rw [Int.ceil_eq_iff]
  unfold Time Duration at *
  have hq : (0 : ℚ) < (chunkSize : ℚ) := by exact_mod_cast hsize
  have hn : 0 ≤ (end_ - start + chunkSize - 1) / chunkSize :=
    Int.ediv_nonneg (by omega) (le_of_lt hsize)
  have hcast : ((numChunks start end_ chunkSize : Int)) = (end_ - start + chunkSize - 1) / chunkSize := by
    unfold numChunks
    exact Int.toNat_of_nonneg hn
  rw [hcast]
  have h1 := Int.ediv_add_emod (end_ - start + chunkSize - 1) chunkSize
  have h2 := Int.emod_nonneg (end_ - start + chunkSize - 1) (ne_of_gt hsize)
  have h3 := Int.emod_lt_of_pos (end_ - start + chunkSize - 1) hsize
  generalize (end_ - start + chunkSize - 1) / chunkSize = q at *
  generalize (end_ - start + chunkSize - 1) % chunkSize = r at *
  constructor
  · rw [lt_div_iff₀ hq]
    have : (q - 1) * chunkSize < end_ - start := by nlinarith
    exact_mod_cast this
  · rw [div_le_iff₀ hq]
    have : end_ - start ≤ q * chunkSize := by nlinarith
    exact_mod_cast this

theorem numChunks_pos (start end_ : Time) (chunkSize : Duration) (hlt : start < end_)
    (hsize : 0 < chunkSize) : 0 < numChunks start end_ chunkSize := by
  rw [lt_numChunks_iff start end_ chunkSize hsize]
  simpa using hlt

theorem numChunks_self (start : Time) (chunkSize : Duration) (hsize : 0 < chunkSize) :
    numChunks start start chunkSize = 0 := by
  by_contra h
  have := (lt_numChunks_iff start start chunkSize hsize 0).mp (Nat.pos_of_ne_zero h)
  simp at this

theorem numChunks_ten_days (start : Time) :
    numChunks start (start + 10 * (24 * Hour)) (24 * Hour) = 10 := by
  unfold numChunks Hour
  have : (start + 10 * (24 * 3600000000000) - start + 24 * 3600000000000 - 1 : Int) = 950399999999999 := by ring
  rw [this]
  decide

/-! ## Reading a trace -/

theorem fetchCalls_append (xs ys : List Event) :
    fetchCalls (xs ++ ys) = fetchCalls xs ++ fetchCalls ys := by
  induction xs with
  | nil => rfl
  | cons e xs ih => cases e <;> simp [fetchCalls, ih]

theorem requests_append (xs ys : List Event) :
    requests (xs ++ ys) = requests xs ++ requests ys := by
  induction xs with
  | nil => rfl
  | cons e xs ih => cases e <;> simp [requests, ih]

theorem sleeps_append (xs ys : List Event) : sleeps (xs ++ ys) = sleeps xs ++ sleeps ys := by
  induction xs with
  | nil => rfl
  | cons e xs ih => cases e <;> simp [sleeps, ih]

theorem writes_append (xs ys : List Event) : writes (xs ++ ys) = writes xs ++ writes ys := by
  induction xs with
  | nil => rfl
  | cons e xs ih => cases e <;> simp [writes, ih]

theorem dials_append (xs ys : List Event) : dials (xs ++ ys) = dials xs ++ dials ys := by
  induction xs with
  | nil => rfl
  | cons e xs ih => cases e <;> simp [dials, ih]

/-- What `sendToQuestDB` does is made of dials, writes and closes only. -/
theorem sendToQuestDB_events (w : World) (tick : Nat) (cfg : Config) (readings : List Reading) :
    fetchCalls (sendToQuestDB w tick cfg readings).1 = [] ∧
      requests (sendToQuestDB w tick cfg readings).1 = [] ∧
      sleeps (sendToQuestDB w tick cfg readings).1 = [] := by
  unfold sendToQuestDB
  split
  · simp [fetchCalls, requests, sleeps]
  · split <;> simp [fetchCalls, requests, sleeps]

theorem fetchCalls_cycleEvents (w : World) (cfg : Config) (tick : Nat) (a b : Time)
    (readings : List Reading) : fetchCalls (cycleEvents w cfg tick a b readings) = [(a, b)] := by
  simp [cycleEvents, fetchCalls_append, fetchCalls, (sendToQuestDB_events w tick cfg readings).1]

theorem requests_cycleEvents (w : World) (cfg : Config) (tick : Nat) (a b : Time)
    (readings : List Reading) :
    requests (cycleEvents w cfg tick a b readings) = [buildRequest cfg a b] := by
  simp [cycleEvents, requests_append, requests, (sendToQuestDB_events w tick cfg readings).2.1]

theorem sleeps_cycleEvents (w : World) (cfg : Config) (tick : Nat) (a b : Time)
    (readings : List Reading) :
    sleeps (cycleEvents w cfg tick a b readings) = [500 * Millisecond] := by
  simp [cycleEvents, sleeps_append, sleeps, (sendToQuestDB_events w tick cfg readings).2.2]

theorem fetchCalls_flatMap (f : Nat → List Event) (g : Nat → Time × Time)
    (h : ∀ i, fetchCalls (f i) = [g i]) (l : List Nat) :
    fetchCalls (l.flatMap f) = l.map g := by
  induction l with
  | nil => rfl
  | cons i l ih => simp [List.flatMap_cons, fetchCalls_append, h, ih]

theorem requests_flatMap (f : Nat → List Event) (g : Nat → HttpRequest)
    (h : ∀ i, requests (f i) = [g i]) (l : List Nat) :
    requests (l.flatMap f) = l.map g := by
  induction l with
  | nil => rfl
  | cons i l ih => simp [List.flatMap_cons, requests_append, h, ih]

theorem sleeps_flatMap (f : Nat → List Event) (d : Duration)
    (h : ∀ i, sleeps (f i) = [d]) (l : List Nat) :
    sleeps (l.flatMap f) = List.replicate l.length d := by
  induction l with
  | nil => rfl
  | cons i l ih => simp [List.flatMap_cons, sleeps_append, h, ih, List.replicate_succ]

/-- The calls of `fetchReadings` in the first `k` iterations. -/
theorem fetchCalls_stateAfter (w : World) (cfg : Config) (start end_ : Time)
    (chunkSize : Duration) (k : Nat) :
    fetchCalls (stateAfter w cfg start end_ chunkSize k).trace =
      (List.range k).map fun i =>
        (cursorAt start end_ chunkSize i, cursorAt start end_ chunkSize (i + 1)) :=
  fetchCalls_flatMap _ _ (fun _ => fetchCalls_cycleEvents _ _ _ _ _ _) _

theorem requests_stateAfter (w : World) (cfg : Config) (start end_ : Time)
    (chunkSize : Duration) (k : Nat) :
    requests (stateAfter w cfg start end_ chunkSize k).trace =
      (List.range k).map fun i =>
        buildRequest cfg (cursorAt start end_ chunkSize i) (cursorAt start end_ chunkSize (i + 1)) :=
  requests_flatMap _ _ (fun _ => requests_cycleEvents _ _ _ _ _ _) _

theorem sleeps_stateAfter (w : World) (cfg : Config) (start end_ : Time)
    (chunkSize : Duration) (k : Nat) :
    sleeps (stateAfter w cfg start end_ chunkSize k).trace =
      List.replicate k (500 * Millisecond) := by
  have := sleeps_flatMap (cycleAt w cfg start end_ chunkSize) (500 * Millisecond)
    (fun _ => sleeps_cycleEvents _ _ _ _ _ _) (List.range k)
  simpa [stateAfter] using this

/-- The run of a positive chunk size over `start ≤ end_` in which every iteration goes
through: it returns `nil` from the state after `numChunks` iterations. -/
theorem backfill_complete (w : World) (cfg : Config) (start end_ : Time)
    (chunkSize : Duration) (hle : start ≤ end_) (hsize : 0 < chunkSize)
    (hok : ∀ i, i < numChunks start end_ chunkSize → CycleOk w cfg start end_ chunkSize i)
    (fuel : Nat) (hfuel : numChunks start end_ chunkSize ≤ fuel) :
    backfill w cfg start end_ chunkSize fuel =
      .returned
        { err := none
          final :=
            { stateAfter w cfg start end_ chunkSize (numChunks start end_ chunkSize) with
              trace :=
                (stateAfter w cfg start end_ chunkSize (numChunks start end_ chunkSize)).trace ++
                  [.print (Sprintf "backfill complete: %d total readings\n"
                    [.int (stateAfter w cfg start end_ chunkSize
                      (numChunks start end_ chunkSize)).totalReadings])] } } := by
  obtain ⟨rest, rfl⟩ := Nat.exists_eq_add_of_le' hfuel
  rw [backfillLoop_iterations w cfg start end_ chunkSize _
    (fun i hi => ⟨(cursorAt_lt start end_ chunkSize hle hsize i hi).2, hok i hi⟩) rest]
  apply backfillLoop_exit
  simp [stateAfter, cursorAt_numChunks start end_ chunkSize hle hsize]

theorem fetchAt_of_cycleOk {w : World} {cfg : Config} {start end_ : Time} {chunkSize : Duration}
    {i : Nat} (h : CycleOk w cfg start end_ chunkSize i) :
    fetchAt w cfg start end_ chunkSize i = .ok (readingsAt w cfg start end_ chunkSize i) := by
  obtain ⟨⟨readings, hf⟩, -⟩ := h
  rw [readingsAt_of_ok hf, hf]

theorem writes_cycleEvents (w : World) (cfg : Config) (tick : Nat) (a b : Time)
    (readings : List Reading) :
    writes (cycleEvents w cfg tick a b readings) = writes (sendToQuestDB w tick cfg readings).1 := by
  simp [cycleEvents, writes_append, writes]

theorem dials_cycleEvents (w : World) (cfg : Config) (tick : Nat) (a b : Time)
    (readings : List Reading) :
    dials (cycleEvents w cfg tick a b readings) = dials (sendToQuestDB w tick cfg readings).1 := by
  simp [cycleEvents, dials_append, dials]

theorem writes_flatMap (f : Nat → List Event) (l : List Nat) :
    writes (l.flatMap f) = l.flatMap fun i => writes (f i) := by
  induction l with
  | nil => rfl
  | cons i l ih => simp [List.flatMap_cons, writes_append, ih]

theorem dials_flatMap (f : Nat → List Event) (l : List Nat) :
    dials (l.flatMap f) = l.flatMap fun i => dials (f i) := by
  induction l with
  | nil => rfl
  | cons i l ih => simp [List.flatMap_cons, dials_append, ih]

/-! ## A chunk size that is not positive -/

theorem cursorAt_of_nonpos (start end_ : Time) (chunkSize : Duration) (hrange : start < end_)
    (hsize : chunkSize ≤ 0) (k : Nat) :
    cursorAt start end_ chunkSize k = start + k * chunkSize := by
  induction k with
  | zero => simp [cursorAt]
  | succ k ih =>
    rw [cursorAt, ih]
    unfold chunkEndOf
    push_cast
    have : (k : Int) * chunkSize ≤ 0 := Int.mul_nonpos_of_nonneg_of_nonpos (by omega) hsize
    have e : start + (↑k + 1) * chunkSize = start + ↑k * chunkSize + chunkSize := by ring
    rw [e]
    unfold Time Duration at *
    simp only [gt_iff_lt]
    rw [if_neg (by omega)]

theorem cursorAt_lt_of_nonpos (start end_ : Time) (chunkSize : Duration) (hrange : start < end_)
    (hsize : chunkSize ≤ 0) (k : Nat) : cursorAt start end_ chunkSize k < end_ := by
  rw [cursorAt_of_nonpos start end_ chunkSize hrange hsize]
  have : (k : Int) * chunkSize ≤ 0 := Int.mul_nonpos_of_nonneg_of_nonpos (by omega) hsize
  unfold Time Duration at *
  omega

/-- With a chunk size that is not positive the loop is left only through one of its two
error returns. -/
theorem backfillLoop_nonpos_returned (w : World) (cfg : Config) (end_ : Time)
    (chunkSize : Duration) (hsize : chunkSize ≤ 0) (fuel : Nat) :
    ∀ (st : LoopState) (run : Run), st.current < end_ →
      backfillLoop w cfg end_ chunkSize fuel st = .returned run →
      ∃ (tick : Nat) (a b : Time) (e : Error),
        (fetchReadings w tick cfg a b = .error e ∧
            run.err = some (Sprintf "fetch error for chunk starting %s: %w"
              [.str (w.format "2006-01-02T15:04:05Z07:00" a), .str e])) ∨
          (∃ readings, fetchReadings w tick cfg a b = .ok readings ∧
            (sendToQuestDB w tick cfg readings).2 = some e ∧
            run.err = some (Sprintf "questdb error for chunk starting %s: %w"
              [.str (w.format "2006-01-02T15:04:05Z07:00" a), .str e])) := by
  induction fuel with
  | zero =>
    intro st run hlt h
    simp [backfillLoop, hlt] at h
  | succ fuel ih =>
    intro st run hlt h
    rw [backfillLoop] at h
    simp only [hlt, if_true] at h
    cases hf : fetchReadings w st.tick cfg st.current (chunkEndOf st.current end_ chunkSize) with
    | error e =>
      rw [hf] at h
      simp only [Outcome.returned.injEq] at h
      exact ⟨st.tick, st.current, _, e, Or.inl ⟨hf, by rw [← h]⟩⟩
    | ok readings =>
      rw [hf] at h
      simp only at h
      rcases hs : sendToQuestDB w st.tick cfg readings with ⟨evs, _ | e⟩
      · rw [hs] at h
        simp only at h
        refine ih _ run ?_ h
        show chunkEndOf st.current end_ chunkSize < end_
        unfold chunkEndOf
        unfold Time Duration at *
        simp only [gt_iff_lt]
        split <;> omega
      · rw [hs] at h
        simp only [Outcome.returned.injEq] at h
        exact ⟨st.tick, st.current, _, e, Or.inr ⟨readings, hf, by rw [hs], by rw [← h]⟩⟩

/-- With a chunk size that is not positive, a run whose first `n` iterations go through
is still in the loop after them, `n` chunk sizes from `start`. -/
theorem backfill_nonpos_unfinished (w : World) (cfg : Config) (start end_ : Time)
    (chunkSize : Duration) (hrange : start < end_) (hsize : chunkSize ≤ 0) (n : Nat)
    (hok : ∀ i, i < n → CycleOk w cfg start end_ chunkSize i) :
    ∃ st : LoopState,
      backfill w cfg start end_ chunkSize n = .unfinished st ∧
      st.current = start + n * chunkSize ∧ st.current < end_ ∧
      fetchCalls st.trace =
        (List.range n).map (fun (i : Nat) =>
          (start + i * chunkSize, start + i * chunkSize + chunkSize)) := by
  have hrun := backfillLoop_iterations w cfg start end_ chunkSize n
    (fun i hi => ⟨cursorAt_lt_of_nonpos start end_ chunkSize hrange hsize i, hok i hi⟩) 0
  rw [Nat.zero_add, backfillLoop_zero_lt w cfg end_ chunkSize _
    (cursorAt_lt_of_nonpos start end_ chunkSize hrange hsize n)] at hrun
  refine ⟨_, hrun, cursorAt_of_nonpos start end_ chunkSize hrange hsize n,
    cursorAt_lt_of_nonpos start end_ chunkSize hrange hsize n, ?_⟩
  rw [fetchCalls_stateAfter]
  apply List.map_congr_left
  intro i _
  rw [cursorAt_of_nonpos start end_ chunkSize hrange hsize,
    cursorAt_of_nonpos start end_ chunkSize hrange hsize]
  push_cast
  congr 1
  ring

/-! ## Every fetch of a run -/

theorem UnixMilli_eq_div (t : Time) : UnixMilli t = t / 1000000 := by
  unfold UnixMilli
  unfold Time at *
  omega

theorem UnixMilli_mono {a b : Time} (h : a ≤ b) : UnixMilli a ≤ UnixMilli b := by
  rw [UnixMilli_eq_div, UnixMilli_eq_div]
  unfold Time at *
  omega

theorem UnixMilli_lt_of_aligned {a b : Time} (h : a < b) (ha : Millisecond ∣ a)
    (hb : Millisecond ∣ b) : UnixMilli a < UnixMilli b := by
  rw [UnixMilli_eq_div, UnixMilli_eq_div]
  obtain ⟨x, rfl⟩ := ha
  obtain ⟨y, rfl⟩ := hb
  unfold Millisecond at *
  unfold Time Duration at *
  omega

theorem not_fetch_mem_sendToQuestDB (w : World) (tick : Nat) (cfg : Config)
    (readings : List Reading) (a b : Time) (req : HttpRequest) :
    Event.fetch a b req ∉ (sendToQuestDB w tick cfg readings).1 := by
  unfold sendToQuestDB
  split
  · simp
  · split <;> simp

/-- Every fetch of a run starts at a cursor below `end_` that satisfies any property `I`
the chunking preserves, ends at that cursor's chunk end and sends the request built
from the two. -/
theorem backfillLoop_fetch_mem (w : World) (cfg : Config) (end_ : Time) (chunkSize : Duration)
    (I : Time → Prop) (hI : ∀ c, I c → c < end_ → I (chunkEndOf c end_ chunkSize))
    (fuel : Nat) :
    ∀ (st : LoopState), I st.current → ∀ (a b : Time) (req : HttpRequest),
      Event.fetch a b req ∈ (backfillLoop w cfg end_ chunkSize fuel st).state.trace →
      Event.fetch a b req ∈ st.trace ∨
        (I a ∧ a < end_ ∧ b = chunkEndOf a end_ chunkSize ∧ req = buildRequest cfg a b) := by
  induction fuel with
  | zero =>
    intro st _ a b req h
    by_cases hlt : st.current < end_
    · simp [backfillLoop, hlt, Outcome.state] at h
      exact Or.inl h
    · simp [backfillLoop, hlt, Outcome.state] at h
      exact Or.inl h
  | succ fuel ih =>
    intro st hst a b req h
    by_cases hlt : st.current < end_
    · rw [backfillLoop] at h
      simp only [hlt, if_true] at h
      cases hf : fetchReadings w st.tick cfg st.current (chunkEndOf st.current end_ chunkSize) with
      | error e =>
        rw [hf] at h
        simp only [Outcome.state, List.mem_append, List.mem_cons, reduceCtorEq, false_or,
          Event.fetch.injEq, List.mem_nil_iff, or_false, List.mem_singleton] at h
        rcases h with h | ⟨rfl, rfl, rfl⟩
        · exact Or.inl h
        · exact Or.inr ⟨hst, hlt, rfl, rfl⟩
      | ok readings =>
        rw [hf] at h
        simp only at h
        rcases hs : sendToQuestDB w st.tick cfg readings with ⟨evs, _ | e⟩
        · rw [hs] at h
          simp only at h
          have hno := not_fetch_mem_sendToQuestDB w st.tick cfg readings a b req
          rw [hs] at hno
          rcases ih _ (hI _ hst hlt) a b req h with h | h
          · simp only [List.mem_append, List.mem_cons, reduceCtorEq, false_or,
              Event.fetch.injEq, List.mem_nil_iff, or_false, List.mem_singleton] at h
            rcases h with (h | ⟨rfl, rfl, rfl⟩) | h
            · exact Or.inl h
            · exact Or.inr ⟨hst, hlt, rfl, rfl⟩
            · exact absurd h hno
          · exact Or.inr h
        · rw [hs] at h
          have hno := not_fetch_mem_sendToQuestDB w st.tick cfg readings a b req
          rw [hs] at hno
          simp only [Outcome.state, List.mem_append, List.mem_cons, reduceCtorEq, false_or,
            Event.fetch.injEq, List.mem_nil_iff, or_false, List.mem_singleton] at h
          rcases h with (h | ⟨rfl, rfl, rfl⟩) | h
          · exact Or.inl h
          · exact Or.inr ⟨hst, hlt, rfl, rfl⟩
          · exact absurd h hno
    · rw [backfillLoop] at h
      simp [hlt, Outcome.state] at h
      exact Or.inl h

theorem UnixMilli_lt_of_millisecond {a b : Time} (h : Millisecond ≤ b - a) :
    UnixMilli a < UnixMilli b := by
  rw [UnixMilli_eq_div, UnixMilli_eq_div]
  unfold Millisecond at *
  unfold Time Duration at *
  omega

/-- What a call of `sendToQuestDB` that returns `nil` has done. -/
theorem sendToQuestDB_of_ok (w : World) (tick : Nat) (cfg : Config) (readings : List Reading)
    (h : (sendToQuestDB w tick cfg readings).2 = none) :
    (sendToQuestDB w tick cfg readings).1 =
      if readings.length = 0 then []
      else [.dial cfg.QuestDBAddr, .write (encodeReadings readings), .close] := by
  unfold sendToQuestDB at h ⊢
  split
  · rfl
  · cases hd : w.dial tick cfg.QuestDBAddr with
    | none => simp
    | some e => simp [*] at h

theorem lt_chunkEndOf (c end_ : Time) (chunkSize : Duration) (hsize : 0 < chunkSize)
    (hlt : c < end_) : c < chunkEndOf c end_ chunkSize := by
  unfold chunkEndOf
  unfold Time Duration at *
  simp only [gt_iff_lt]
  split <;> omega

theorem chunkEndOf_aligned (c end_ : Time) (chunkSize : Duration) (hc : Millisecond ∣ c)
    (he : Millisecond ∣ end_) (hs : Millisecond ∣ chunkSize) :
    Millisecond ∣ chunkEndOf c end_ chunkSize := by
  unfold chunkEndOf
  simp only [gt_iff_lt]
  split
  · exact he
  · exact dvd_add hc hs

/-! ## Decimal numbers and the timestamp token -/

/-- One step of reading a decimal number. -/
theorem decimalValue_cons (c : Char) (cs : List Char) :
    decimalValue (c :: cs) =
      (c :: cs).foldlM (fun n d => (digitValue d).map fun v => n * 10 + v) 0 := rfl

theorem digitValue_digitChar (k : Nat) (hk : k < 10) : digitValue (Nat.digitChar k) = some k := by
  interval_cases k <;> decide

theorem toDigitsCore_append (fuel : Nat) :
    ∀ (n : Nat) (ds : List Char),
      Nat.toDigitsCore 10 fuel n ds = Nat.toDigitsCore 10 fuel n [] ++ ds := by
  induction fuel with
  | zero => intro n ds; simp [Nat.toDigitsCore]
  | succ fuel ih =>
    intro n ds
    simp only [Nat.toDigitsCore]
    split
    · simp
    · rw [ih (n / 10) (Nat.digitChar (n % 10) :: ds), ih (n / 10) [Nat.digitChar (n % 10)]]
      simp

theorem foldlM_toDigitsCore (fuel : Nat) :
    ∀ n : Nat, n < fuel →
      (Nat.toDigitsCore 10 fuel n []).foldlM
        (fun n d => (digitValue d).map fun v => n * 10 + v) 0 = some n := by
  induction fuel with
  | zero => intro n h; omega
  | succ fuel ih =>
    intro n hn
    simp only [Nat.toDigitsCore]
    split
    · rename_i h0
      have hlt : n < 10 := by omega
      simp [List.foldlM, Nat.mod_eq_of_lt hlt, digitValue_digitChar n hlt]
    · rename_i h0
      rw [toDigitsCore_append, List.foldlM_append, ih (n / 10) (by omega)]
      simp [List.foldlM, digitValue_digitChar (n % 10) (Nat.mod_lt _ (by decide))]
      omega

theorem toDigits_ne_nil (n : Nat) : Nat.toDigits 10 n ≠ [] := by
  unfold Nat.toDigits
  simp only [Nat.toDigitsCore]
  split
  · simp
  · rw [toDigitsCore_append]
    simp

/-- The decimal representation of `m` denotes `m`. -/
theorem decimalValue_repr (m : Nat) : decimalValue (Nat.repr m).toList = some m := by
  have h : (Nat.repr m).toList = Nat.toDigits 10 m := rfl
  rw [h]
  cases hd : Nat.toDigits 10 m with
  | nil => exact absurd hd (toDigits_ne_nil m)
  | cons c cs =>
    rw [decimalValue_cons, ← hd]
    exact foldlM_toDigitsCore (m + 1) m (Nat.lt_succ_self m)

theorem foldlM_digits_mem (cs : List Char) :
    ∀ (n m : Nat),
      cs.foldlM (fun n d => (digitValue d).map fun v => n * 10 + v) n = some m →
      ∀ c ∈ cs, c ≠ ' ' := by
  induction cs with
  | nil => intro n m _ c hc; simp at hc
  | cons d cs ih =>
    intro n m h c hc
    rw [List.foldlM_cons] at h
    cases hd : digitValue d with
    | none => simp [hd] at h
    | some v =>
      simp only [hd, Option.map_some', Option.some_bind, Option.bind_eq_bind] at h
      rcases List.mem_cons.mp hc with rfl | hc
      · rintro rfl
        simp [digitValue] at hd
      · exact ih _ m h c hc

theorem lastField_foldl (ys : List Char) (h : ∀ c ∈ ys, c ≠ ' ') :
    ∀ acc : List Char,
      ys.foldl (fun acc c => if c = ' ' then [] else acc ++ [c]) acc = acc ++ ys := by
  induction ys with
  | nil => intro acc; simp
  | cons y ys ih =>
    intro acc
    rw [List.foldl_cons, if_neg (h y (List.mem_cons_self _ _)),
      ih (fun c hc => h c (List.mem_cons_of_mem _ hc))]
    simp

theorem lastField_append_blank (xs ys : List Char) (h : ∀ c ∈ ys, c ≠ ' ') :
    lastField (xs ++ ' ' :: ys) = ys := by
  unfold lastField
  rw [List.foldl_append, List.foldl_cons, if_pos rfl, lastField_foldl ys h]
  rfl

theorem timestampToken_encodeLine (r : Reading) (h : ∀ c ∈ r.P.toList, c ≠ ' ') :
    timestampToken (encodeLine r) = r.P.toList ++ "000000".toList := by
  unfold timestampToken
  have e : (encodeLine r).toList =
      (("water_readings,device_id=" ++ r.W ++ " total_gallons=" ++ r.G ++ "i,temp_f=" ++ r.T ++
        "i,uptime=" ++ r.U ++ "i").toList ++ ' ' :: (r.P.toList ++ "000000".toList)) ++
        ['\n'] := by
    rw [encodeLine_eq]
    simp [String.toList]
  rw [e, List.dropLast_concat]
  apply lastField_append_blank
  intro c hc
  rcases List.mem_append.mp hc with hc | hc
  · exact h c hc
  · have hz : ∀ c ∈ "000000".toList, c ≠ ' ' := by decide
    exact hz c hc

theorem decimalValue_append_zeros (cs : List Char) (m : Nat) (h : decimalValue cs = some m) :
    decimalValue (cs ++ "000000".toList) = some (m * 1000000) := by
  cases cs with
  | nil => simp [decimalValue] at h
  | cons c cs =>
    rw [decimalValue_cons] at h
    rw [List.cons_append, decimalValue_cons, ← List.cons_append, List.foldlM_append, h]
    simp [List.foldlM, digitValue]
    omega

theorem decimalValue_no_blank (cs : List Char) (m : Nat) (h : decimalValue cs = some m) :
    ∀ c ∈ cs, c ≠ ' ' := by
  cases cs with
  | nil => simp [decimalValue] at h
  | cons c cs =>
    rw [decimalValue_cons] at h
    exact foldlM_digits_mem _ 0 m h

/-- The chunks of a run with a positive chunk size, in closed form. -/
theorem chunk_closed_form (start end_ : Time) (chunkSize : Duration) (hle : start ≤ end_)
    (hsize : 0 < chunkSize) (i : Nat) (hi : i < numChunks start end_ chunkSize) :
    cursorAt start end_ chunkSize i = start + i * chunkSize ∧
      cursorAt start end_ chunkSize (i + 1) = min (start + i * chunkSize + chunkSize) end_ := by
  refine ⟨(cursorAt_lt start end_ chunkSize hle hsize i hi).1, ?_⟩
  rw [cursorAt_eq_min start end_ chunkSize hle hsize (i + 1)]
  push_cast
  congr 1
  ring

/-! ## The claims -/

/-- C1. For `start < end_` and a positive chunk size, when every fetch and write of the
run succeeds, `backfill` returns (any fuel of at least `numChunks` is enough) and the
`(cursor, chunkEnd)` pairs it passed to `fetchReadings` partition the range: the first
starts at `start`, each starts where the one before ended, each is non-empty and no
longer than `chunkSize`, and the last ends at `end_`. -/
theorem backfill_chunks_partition (w : World) (cfg : Config) (start end_ : Time)
    (chunkSize : Duration) (hrange : start < end_) (hsize : 0 < chunkSize)
    (hok : ∀ i, i < numChunks start end_ chunkSize → CycleOk w cfg start end_ chunkSize i) :
    ∃ run : Run,
      (∀ fuel, numChunks start end_ chunkSize ≤ fuel →
        backfill w cfg start end_ chunkSize fuel = .returned run) ∧
      (fetchCalls run.final.trace).head?.map Prod.fst = some start ∧
      List.Chain' (fun c d => d.1 = c.2) (fetchCalls run.final.trace) ∧
      (∀ c ∈ fetchCalls run.final.trace, c.1 < c.2 ∧ c.2 - c.1 ≤ chunkSize) ∧
      (fetchCalls run.final.trace).getLast?.map Prod.snd = some end_ := by
  have hle : start ≤ end_ := le_of_lt hrange
  refine ⟨_, fun fuel hfuel => backfill_complete w cfg start end_ chunkSize hle hsize hok fuel hfuel,
    ?_⟩
  simp only [fetchCalls_append, fetchCalls, List.append_nil, fetchCalls_stateAfter]
  obtain ⟨n, hn⟩ : ∃ n, numChunks start end_ chunkSize = n + 1 :=
    Nat.exists_eq_succ_of_ne_zero
      (Nat.pos_iff_ne_zero.mp (numChunks_pos start end_ chunkSize hrange hsize))
  have hend := cursorAt_numChunks start end_ chunkSize hle hsize
  refine ⟨?_, ?_, ?_, ?_⟩
  · rw [hn]
    simp [List.range_succ_eq_map, cursorAt]
  · rw [List.chain'_map, hn, List.chain'_range_succ]
    intro m _
    rfl
  · intro c hc
    obtain ⟨i, hi, rfl⟩ := List.mem_map.mp hc
    have hi := List.mem_range.mp hi
    have h1 := cursorAt_lt start end_ chunkSize hle hsize i hi
    have h2 := cursorAt_eq_min start end_ chunkSize hle hsize (i + 1)
    simp only
    rw [h2, h1.1]
    have h3 := h1.2
    rw [h1.1] at h3
    push_cast
    have e : start + (↑i + 1) * chunkSize = start + ↑i * chunkSize + chunkSize := by ring
    rw [e]
    unfold Time Duration at *
    omega
  · rw [hn] at hend ⊢
    simp [List.range_succ, hend]

/-- C1 at the range `[0, 10)` with chunks of 4 in `calmWorld`. -/
theorem backfill_chunks_partition_witness :
    ((0 : Int) < 10 ∧ (0 : Int) < 4 ∧
      ∀ i, i < numChunks 0 10 4 → CycleOk calmWorld sampleConfig 0 10 4 i) ∧
      ∃ run : Run,
        (∀ fuel, numChunks 0 10 4 ≤ fuel →
          backfill calmWorld sampleConfig 0 10 4 fuel = .returned run) ∧
        (fetchCalls run.final.trace).head?.map Prod.fst = some 0 ∧
        List.Chain' (fun c d => d.1 = c.2) (fetchCalls run.final.trace) ∧
        (∀ c ∈ fetchCalls run.final.trace, c.1 < c.2 ∧ c.2 - c.1 ≤ 4) ∧
        (fetchCalls run.final.trace).getLast?.map Prod.snd = some 10 :=
  ⟨⟨by decide, by decide, fun _ _ => ⟨⟨_, rfl⟩, rfl⟩⟩,
    backfill_chunks_partition calmWorld sampleConfig 0 10 4 (by decide) (by decide)
      (fun _ _ => ⟨⟨_, rfl⟩, rfl⟩)⟩

/-- C2, as the code has it. For `start < end_` and a chunk size that is not positive,
`backfill` checks nothing: as long as the iterations go through it stays in the loop,
after `n` of them the cursor is `n` chunk sizes from `start`, still before `end_`, and
`n` fetches have been made; and whenever it returns, it returns the error of a fetch or
of a sink write that failed. -/
theorem backfill_nonpositive_chunk (w : World) (cfg : Config) (start end_ : Time)
    (chunkSize : Duration) (hrange : start < end_) (hsize : chunkSize ≤ 0) :
    (∀ n : Nat, (∀ i, i < n → CycleOk w cfg start end_ chunkSize i) →
      ∃ st : LoopState,
        backfill w cfg start end_ chunkSize n = .unfinished st ∧
        st.current = start + n * chunkSize ∧ st.current < end_ ∧
        fetchCalls st.trace =
          (List.range n).map (fun (i : Nat) =>
            (start + i * chunkSize, start + i * chunkSize + chunkSize))) ∧
    (∀ (fuel : Nat) (run : Run), backfill w cfg start end_ chunkSize fuel = .returned run →
      ∃ (tick : Nat) (a b : Time) (e : Error),
        (fetchReadings w tick cfg a b = .error e ∧
            run.err = some (Sprintf "fetch error for chunk starting %s: %w"
              [.str (w.format "2006-01-02T15:04:05Z07:00" a), .str e])) ∨
          (∃ readings, fetchReadings w tick cfg a b = .ok readings ∧
            (sendToQuestDB w tick cfg readings).2 = some e ∧
            run.err = some (Sprintf "questdb error for chunk starting %s: %w"
              [.str (w.format "2006-01-02T15:04:05Z07:00" a), .str e]))) :=
  ⟨fun n hok => backfill_nonpos_unfinished w cfg start end_ chunkSize hrange hsize n hok,
    fun fuel run h =>
      backfillLoop_nonpos_returned w cfg end_ chunkSize hsize fuel _ run hrange h⟩

/-- C2 as amended, at the range `[0, 1)` with the chunk size of `-chunk -1`: three
iterations in `calmWorld` leave the loop running, three hours before `start`. -/
theorem backfill_nonpositive_chunk_witness :
    ((0 : Int) < 1 ∧ chunkSizeOfFlag (-1) ≤ 0) ∧
      ∃ st : LoopState,
        backfill calmWorld sampleConfig 0 1 (chunkSizeOfFlag (-1)) 3 = .unfinished st ∧
        st.current = 0 + (3 : Nat) * chunkSizeOfFlag (-1) ∧ st.current < 1 ∧
        fetchCalls st.trace =
          (List.range 3).map (fun (i : Nat) =>
            (0 + i * chunkSizeOfFlag (-1), 0 + i * chunkSizeOfFlag (-1) + chunkSizeOfFlag (-1))) :=
  ⟨⟨by decide, by decide⟩,
    (backfill_nonpositive_chunk calmWorld sampleConfig 0 1 (chunkSizeOfFlag (-1)) (by decide)
      (by decide)).1 3 (fun _ _ => ⟨⟨_, rfl⟩, rfl⟩)⟩

/-- C2 fails on the code: with `-chunk 0` (a chunk size of zero) over the range `[0, 1)`
in a world where every fetch and write succeeds, `backfill` never returns, whatever the
number of iterations it is given. -/
theorem backfill_zero_chunk_never_returns :
    ¬ ∃ (fuel : Nat) (run : Run),
      backfill calmWorld sampleConfig 0 1 (chunkSizeOfFlag 0) fuel = .returned run := by
  rintro ⟨fuel, run, h⟩
  obtain ⟨st, hst, -⟩ :=
    backfill_nonpos_unfinished calmWorld sampleConfig 0 1 (chunkSizeOfFlag 0) (by decide)
      (by decide) fuel (fun i _ => ⟨⟨_, rfl⟩, rfl⟩)
  rw [hst] at h
  cases h

/-- C3. When the loop reaches iteration `k` (counted from 0), the iterations before it go
through and the fetch of iteration `k` fails with `err`, `backfill` returns (any fuel
above `k` is enough) an error that wraps `err` and names the start of chunk `k`; the
cursor is still the start of chunk `k`, the total is the sum of the counts of the chunks
before `k`, and the trace is the events of those chunks followed by the progress text and
the fetch of chunk `k`: no dial and no write for chunk `k`, and nothing of a later
chunk. -/
theorem backfill_fetch_failure (w : World) (cfg : Config) (start end_ : Time)
    (chunkSize : Duration) (k : Nat) (err : Error)
    (hreach : ∀ i, i ≤ k → cursorAt start end_ chunkSize i < end_)
    (hok : ∀ i, i < k → CycleOk w cfg start end_ chunkSize i)
    (hfail : fetchAt w cfg start end_ chunkSize k = .error err)
    (fuel : Nat) (hfuel : k < fuel) :
    ∃ run : Run,
      backfill w cfg start end_ chunkSize fuel = .returned run ∧
      run.err = some (Sprintf "fetch error for chunk starting %s: %w"
        [.str (w.format "2006-01-02T15:04:05Z07:00" (cursorAt start end_ chunkSize k)),
         .str err]) ∧
      run.final.current = cursorAt start end_ chunkSize k ∧
      run.final.totalReadings =
        (((List.range k).map fun i => (readingsAt w cfg start end_ chunkSize i).length).sum : Nat) ∧
      run.final.trace =
        (List.range k).flatMap (cycleAt w cfg start end_ chunkSize) ++
          [.print (fetchingText w (cursorAt start end_ chunkSize k)
              (cursorAt start end_ chunkSize (k + 1))),
           .fetch (cursorAt start end_ chunkSize k) (cursorAt start end_ chunkSize (k + 1))
             (buildRequest cfg (cursorAt start end_ chunkSize k)
               (cursorAt start end_ chunkSize (k + 1)))] ∧
      fetchCalls run.final.trace =
        (List.range (k + 1)).map (fun i =>
          (cursorAt start end_ chunkSize i, cursorAt start end_ chunkSize (i + 1))) ∧
      dials run.final.trace =
        (List.range k).flatMap (fun i =>
          dials (sendToQuestDB w i cfg (readingsAt w cfg start end_ chunkSize i)).1) ∧
      writes run.final.trace =
        (List.range k).flatMap (fun i =>
          writes (sendToQuestDB w i cfg (readingsAt w cfg start end_ chunkSize i)).1) ∧
      sleeps run.final.trace = List.replicate k (500 * Millisecond) := by
  obtain ⟨rest, rfl⟩ : ∃ rest, fuel = (rest + 1) + k := ⟨fuel - k - 1, by omega⟩
  have hrun := backfillLoop_iterations w cfg start end_ chunkSize k
    (fun i hi => ⟨hreach i (le_of_lt hi), hok i hi⟩) (rest + 1)
  rw [backfillLoop_succ_fetch_error w cfg end_ chunkSize rest
    (stateAfter w cfg start end_ chunkSize k) err (hreach k le_rfl) hfail] at hrun
  refine ⟨_, hrun, rfl, rfl, rfl, rfl, ?_, ?_, ?_, ?_⟩
  · simp only [fetchCalls_append, fetchCalls_stateAfter, fetchCalls, List.range_succ,
      List.map_append, List.map_cons, List.map_nil]
    rfl
  · simp only [dials_append, dials, List.append_nil]
    rw [show (stateAfter w cfg start end_ chunkSize k).trace =
      (List.range k).flatMap (cycleAt w cfg start end_ chunkSize) from rfl, dials_flatMap]
    simp [cycleAt, dials_cycleEvents]
  · simp only [writes_append, writes, List.append_nil]
    rw [show (stateAfter w cfg start end_ chunkSize k).trace =
      (List.range k).flatMap (cycleAt w cfg start end_ chunkSize) from rfl, writes_flatMap]
    simp [cycleAt, writes_cycleEvents]
  · simp only [sleeps_append, sleeps, List.append_nil, sleeps_stateAfter]

/-- C3 at chunk 3 of 5: the range `[0, 10)` in chunks of 2, the third request refused. -/
theorem backfill_fetch_failure_witness :
    ((∀ i, i ≤ 2 → cursorAt 0 10 2 i < 10) ∧
      (∀ i, i < 2 → CycleOk (stormWorld 2) sampleConfig 0 10 2 i) ∧
      fetchAt (stormWorld 2) sampleConfig 0 10 2 2 = .error "connection refused" ∧
      numChunks 0 10 2 = 5) ∧
      ∃ run : Run,
        backfill (stormWorld 2) sampleConfig 0 10 2 5 = .returned run ∧
        run.err = some "fetch error for chunk starting 4: connection refused" ∧
        run.final.current = 4 ∧
        run.final.totalReadings = 2 ∧
        fetchCalls run.final.trace = [(0, 2), (2, 4), (4, 6)] ∧
        (dials run.final.trace).length = 2 ∧
        (writes run.final.trace).length = 2 ∧
        sleeps run.final.trace = [500 * Millisecond, 500 * Millisecond] := by
  have hreach : ∀ i, i ≤ 2 → cursorAt 0 10 2 i < 10 := by
    intro i hi
    interval_cases i <;> decide
  have hok : ∀ i, i < 2 → CycleOk (stormWorld 2) sampleConfig 0 10 2 i := by
    intro i hi
    interval_cases i <;> exact ⟨⟨_, rfl⟩, rfl⟩
  have hfail : fetchAt (stormWorld 2) sampleConfig 0 10 2 2 = .error "connection refused" := rfl
  obtain ⟨run, h1, h2, h3, h4, -, h6, h7, h8, h9⟩ :=
    backfill_fetch_failure (stormWorld 2) sampleConfig 0 10 2 2 "connection refused" hreach hok
      hfail 5 (by decide)
  refine ⟨⟨hreach, hok, hfail, by decide⟩, run, h1, ?_, ?_, ?_, ?_, ?_, ?_, ?_⟩
  · rw [h2]; decide
  · rw [h3]; decide
  · rw [h4]; decide
  · rw [h6]; decide
  · rw [h7]; decide
  · rw [h8]; decide
  · rw [h9]; decide

/-- C4. The line of a reading is `water_readings,device_id=` `W` ` total_gallons=` `G`
`i,temp_f=` `T` `i,uptime=` `U` `i ` `P` `000000` and a newline; the reading with
`G = 1500`, `T = 72`, `U = 999`, `W = ABC123`, `P = 1700000000000` gives the line of the
specification. -/
theorem encodeLine_format (r : Reading) :
    encodeLine r =
        "water_readings,device_id=" ++ r.W ++ " total_gallons=" ++ r.G ++ "i,temp_f=" ++ r.T ++
          "i,uptime=" ++ r.U ++ "i " ++ r.P ++ "000000" ++ "\n" ∧
      encodeLine { G := "1500", T := "72", U := "999", W := "ABC123", P := "1700000000000" } =
        "water_readings,device_id=ABC123 total_gallons=1500i,temp_f=72i,uptime=999i 1700000000000000000\n" :=
  ⟨encodeLine_eq r, by decide⟩

/-- C5. Encoding no reading gives the empty payload, and the payload of any list of
readings is the concatenation, in input order, of one line per reading, each line ending
in a newline. -/
theorem encodeReadings_lines :
    encodeReadings [] = "" ∧
      ∀ readings : List Reading,
        encodeReadings readings = String.join (readings.map encodeLine) ∧
          (readings.map encodeLine).length = readings.length ∧
          ∀ line ∈ readings.map encodeLine, line.toList.getLast? = some '\n' := by
  refine ⟨rfl, fun readings => ⟨encodeReadings_eq_join readings, by simp, ?_⟩⟩
  intro line hline
  obtain ⟨r, -, rfl⟩ := List.mem_map.mp hline
  exact encodeLine_getLast r

/-- C6. When the `P` field of a reading is the decimal representation of the natural
number `m`, the timestamp token of its line, read as a decimal number, is
`m * 1000000`. -/
theorem timestamp_is_nanoseconds (r : Reading) (m : Nat) (h : r.P = Nat.repr m) :
    decimalValue (timestampToken (encodeLine r)) = some (m * 1000000) := by
  have hv : decimalValue r.P.toList = some m := by rw [h]; exact decimalValue_repr m
  rw [timestampToken_encodeLine r (decimalValue_no_blank _ m hv)]
  exact decimalValue_append_zeros _ m hv

/-- C6 at the reading of the specification. -/
theorem timestamp_is_nanoseconds_witness :
    "1700000000000" = Nat.repr 1700000000000 ∧
      decimalValue (timestampToken (encodeLine
        { G := "1500", T := "72", U := "999", W := "ABC123", P := "1700000000000" })) =
        some (1700000000000 * 1000000) :=
  ⟨by decide,
    timestamp_is_nanoseconds
      { G := "1500", T := "72", U := "999", W := "ABC123", P := "1700000000000" }
      1700000000000 (by decide)⟩

/-- C7. For `start < end_` and a positive chunk size, when every fetch and write of the
run succeeds, `backfill` returns `nil` and its trace is a sequence of cycles followed by
the summary text; each cycle is the progress text, one fetch, the count text, what
`sendToQuestDB` does with the fetched readings (nothing when there are none, else one
dial, one write of their encoding and the close), and a pause of 500 ms; the number of
cycles is `(end_ - start) / chunkSize` rounded up, which is 10 for a range of ten days
and a chunk size of 24 hours. -/
theorem backfill_cycle_count (w : World) (cfg : Config) (start end_ : Time)
    (chunkSize : Duration) (hrange : start < end_) (hsize : 0 < chunkSize)
    (hok : ∀ i, i < numChunks start end_ chunkSize → CycleOk w cfg start end_ chunkSize i) :
    ∃ (run : Run) (cycles : List (List Event)),
      (∀ fuel, numChunks start end_ chunkSize ≤ fuel →
        backfill w cfg start end_ chunkSize fuel = .returned run) ∧
      run.err = none ∧
      run.final.trace = cycles.flatten ++
        [.print (Sprintf "backfill complete: %d total readings\n"
          [.int run.final.totalReadings])] ∧
      (∀ c ∈ cycles, ∃ (tick : Nat) (a b : Time) (readings : List Reading),
        fetchReadings w tick cfg a b = .ok readings ∧
        sendToQuestDB w tick cfg readings =
          (if readings.length = 0 then []
            else [.dial cfg.QuestDBAddr, .write (encodeReadings readings), .close], none) ∧
        c = [.print (fetchingText w a b), .fetch a b (buildRequest cfg a b),
              .print (Sprintf "%d readings\n" [.int readings.length])] ++
            (sendToQuestDB w tick cfg readings).1 ++ [.sleep (500 * Millisecond)]) ∧
      (cycles.length : Int) = ⌈((end_ - start : Int) : ℚ) / (chunkSize : ℚ)⌉ ∧
      (end_ = start + 10 * (24 * Hour) → chunkSize = 24 * Hour → cycles.length = 10) := by
  have hle : start ≤ end_ := le_of_lt hrange
  refine ⟨_, (List.range (numChunks start end_ chunkSize)).map (cycleAt w cfg start end_ chunkSize),
    fun fuel hfuel => backfill_complete w cfg start end_ chunkSize hle hsize hok fuel hfuel,
    rfl, ?_, ?_, ?_, ?_⟩
  · simp [stateAfter, List.flatMap]
  · intro c hc
    obtain ⟨i, hi, rfl⟩ := List.mem_map.mp hc
    have hc := hok i (List.mem_range.mp hi)
    exact ⟨i, _, _, _, fetchAt_of_cycleOk hc,
      Prod.ext (sendToQuestDB_of_ok w i cfg _ hc.2) hc.2, rfl⟩
  · simpa using numChunks_eq_ceil start end_ chunkSize hle hsize
  · intro h1 h2
    subst h1 h2
    simpa using numChunks_ten_days start

/-- C7 at ten days from the epoch in chunks of 24 hours, in `calmWorld`: ten cycles. -/
theorem backfill_cycle_count_witness :
    ((0 : Int) < 0 + 10 * (24 * Hour) ∧ 0 < 24 * Hour ∧
      ∀ i, i < numChunks 0 (0 + 10 * (24 * Hour)) (24 * Hour) →
        CycleOk calmWorld sampleConfig 0 (0 + 10 * (24 * Hour)) (24 * Hour) i) ∧
      ∃ (run : Run) (cycles : List (List Event)),
        (∀ fuel, 10 ≤ fuel →
          backfill calmWorld sampleConfig 0 (0 + 10 * (24 * Hour)) (24 * Hour) fuel =
            .returned run) ∧
        run.err = none ∧
        run.final.trace = cycles.flatten ++
          [.print (Sprintf "backfill complete: %d total readings\n"
            [.int run.final.totalReadings])] ∧
        cycles.length = 10 := by
  obtain ⟨run, cycles, h1, h2, h3, -, -, h6⟩ :=
    backfill_cycle_count calmWorld sampleConfig 0 (0 + 10 * (24 * Hour)) (24 * Hour)
      (by decide) (by decide) (fun _ _ => ⟨⟨_, rfl⟩, rfl⟩)
  refine ⟨⟨by decide, by decide, fun _ _ => ⟨⟨_, rfl⟩, rfl⟩⟩, run, cycles, ?_, h2, h3, h6 rfl rfl⟩
  intro fuel hfuel
  exact h1 fuel (by rw [numChunks_ten_days]; exact hfuel)

/-- C8. With no readings `sendToQuestDB` returns `nil` and does nothing (no dial, no
write); with at least one reading it dials exactly once, the configured address. -/
theorem sendToQuestDB_connections (w : World) (tick : Nat) (cfg : Config) :
    sendToQuestDB w tick cfg [] = ([], none) ∧
      ∀ (r : Reading) (rs : List Reading),
        dials (sendToQuestDB w tick cfg (r :: rs)).1 = [cfg.QuestDBAddr] := by
  refine ⟨rfl, fun r rs => ?_⟩
  unfold sendToQuestDB
  cases h : w.dial tick cfg.QuestDBAddr <;> simp [h, dials]

/-- C9. For `start ≤ end_` and a positive chunk size, when every fetch and write of the
run succeeds, `backfill` returns `nil` (any fuel of at least `numChunks` is enough) with
the cursor at `end_`; its calls of `fetchReadings` are exactly the `numChunks` chunks
`(start + i * chunkSize, min (start + (i + 1) * chunkSize) end_)` of the range, in order;
the total it prints in the summary is the sum of the lengths of the reading lists those
fetches returned, one list per chunk; and for `start = end_` the total is 0 and the
summary is the only event: no fetch, no dial, no write. -/
theorem backfill_terminates_with_total (w : World) (cfg : Config) (start end_ : Time)
    (chunkSize : Duration) (hle : start ≤ end_) (hsize : 0 < chunkSize)
    (hok : ∀ i, i < numChunks start end_ chunkSize → CycleOk w cfg start end_ chunkSize i) :
    ∃ run : Run,
      (∀ fuel, numChunks start end_ chunkSize ≤ fuel →
        backfill w cfg start end_ chunkSize fuel = .returned run) ∧
      run.err = none ∧
      run.final.current = end_ ∧
      fetchCalls run.final.trace =
        (List.range (numChunks start end_ chunkSize)).map (fun (i : Nat) =>
          (start + i * chunkSize, min (start + i * chunkSize + chunkSize) end_)) ∧
      (∃ fetched : List (List Reading),
        fetched.length = numChunks start end_ chunkSize ∧
        fetched.length = (fetchCalls run.final.trace).length ∧
        (∀ (i : Nat), i < numChunks start end_ chunkSize →
          ∃ readings, fetched[i]? = some readings ∧
            fetchReadings w i cfg (start + i * chunkSize)
              (min (start + i * chunkSize + chunkSize) end_) = .ok readings) ∧
        (∀ (i : Nat) (c : Time × Time) (readings : List Reading),
          (fetchCalls run.final.trace)[i]? = some c → fetched[i]? = some readings →
            fetchReadings w i cfg c.1 c.2 = .ok readings) ∧
        run.final.totalReadings = ((fetched.map List.length).sum : Nat)) ∧
      run.final.trace.getLast? =
        some (.print (Sprintf "backfill complete: %d total readings\n"
          [.int run.final.totalReadings])) ∧
      (start = end_ →
        run.final.totalReadings = 0 ∧
          run.final.trace = [.print "backfill complete: 0 total readings\n"]) := by
  refine ⟨_, fun fuel hfuel => backfill_complete w cfg start end_ chunkSize hle hsize hok fuel hfuel,
    rfl, ?_, ?_, ?_, ?_, ?_⟩
  · exact cursorAt_numChunks start end_ chunkSize hle hsize
  · simp only [fetchCalls_append, fetchCalls, List.append_nil, fetchCalls_stateAfter]
    apply List.map_congr_left
    intro i hi
    have h := chunk_closed_form start end_ chunkSize hle hsize i (List.mem_range.mp hi)
    rw [h.1, h.2]
  · refine ⟨(List.range (numChunks start end_ chunkSize)).map
      (readingsAt w cfg start end_ chunkSize), ?_, ?_, ?_, ?_, ?_⟩
    · simp
    · simp [fetchCalls_append, fetchCalls, fetchCalls_stateAfter]
    · intro i hi
      refine ⟨readingsAt w cfg start end_ chunkSize i, ?_, ?_⟩
      · simp [List.getElem?_map, List.getElem?_range hi]
      · have h := chunk_closed_form start end_ chunkSize hle hsize i hi
        have hf := fetchAt_of_cycleOk (hok i hi)
        unfold fetchAt at hf
        rw [h.1, h.2] at hf
        exact hf
    · intro i c readings hc hr
      simp only [fetchCalls_append, fetchCalls, List.append_nil, fetchCalls_stateAfter] at hc
      rw [List.getElem?_map] at hc hr
      cases hi : (List.range (numChunks start end_ chunkSize))[i]? with
      | none => simp [hi] at hc
      | some j =>
        rw [hi] at hc hr
        simp only [Option.map_some', Option.some.injEq] at hc hr
        obtain ⟨hlt, rfl⟩ : i < numChunks start end_ chunkSize ∧ i = j := by
          rw [List.getElem?_eq_some_iff] at hi
          obtain ⟨h1, h2⟩ := hi
          simp at h1 h2
          exact ⟨h1, h2⟩
        subst hc hr
        exact fetchAt_of_cycleOk (hok i hlt)
    · simp [stateAfter, List.map_map, Function.comp_def]
  · simp
  · intro h
    subst h
    rw [numChunks_self start chunkSize hsize]
    refine ⟨rfl, ?_⟩
    have e : Sprintf "backfill complete: %d total readings\n" [.int 0] =
        "backfill complete: 0 total readings\n" := by decide
    simp [stateAfter, e]

/-- C9 at the range `[0, 10)` with chunks of 4, in `calmWorld`. -/
theorem backfill_terminates_with_total_witness :
    ((0 : Int) ≤ 10 ∧ (0 : Int) < 4 ∧
      ∀ i, i < numChunks 0 10 4 → CycleOk calmWorld sampleConfig 0 10 4 i) ∧
      ∃ run : Run,
        (∀ fuel, numChunks 0 10 4 ≤ fuel →
          backfill calmWorld sampleConfig 0 10 4 fuel = .returned run) ∧
        run.err = none ∧
        run.final.current = 10 ∧
        fetchCalls run.final.trace =
          (List.range (numChunks 0 10 4)).map (fun (i : Nat) =>
            ((0 : Int) + i * 4, min ((0 : Int) + i * 4 + 4) 10)) ∧
        (∃ fetched : List (List Reading),
          fetched.length = numChunks 0 10 4 ∧
          fetched.length = (fetchCalls run.final.trace).length ∧
          (∀ (i : Nat), i < numChunks 0 10 4 →
            ∃ readings, fetched[i]? = some readings ∧
              fetchReadings calmWorld i sampleConfig ((0 : Int) + i * 4)
                (min ((0 : Int) + i * 4 + 4) 10) = .ok readings) ∧
          (∀ (i : Nat) (c : Time × Time) (readings : List Reading),
            (fetchCalls run.final.trace)[i]? = some c → fetched[i]? = some readings →
              fetchReadings calmWorld i sampleConfig c.1 c.2 = .ok readings) ∧
          run.final.totalReadings = ((fetched.map List.length).sum : Nat)) ∧
        run.final.trace.getLast? =
          some (.print (Sprintf "backfill complete: %d total readings\n"
            [.int run.final.totalReadings])) ∧
        ((0 : Int) = 10 →
          run.final.totalReadings = 0 ∧
            run.final.trace = [.print "backfill complete: 0 total readings\n"]) :=
  ⟨⟨by decide, by decide, fun _ _ => ⟨⟨_, rfl⟩, rfl⟩⟩,
    backfill_terminates_with_total calmWorld sampleConfig 0 10 4 (by decide) (by decide)
      (fun _ _ => ⟨⟨_, rfl⟩, rfl⟩)⟩

/-- C10, as the code has it. For a positive chunk size, every call of `fetchReadings` in
a run of `backfill`, finished or not and whatever the world answers, has `from` strictly
before `to` as instants and sends `From = UnixMilli from ≤ To = UnixMilli to`; the two
are different, `From < To`, when the chunk is at least a millisecond long, and for every
chunk when `start`, `end_` and the chunk size are whole numbers of milliseconds. -/
theorem backfill_request_bounds (w : World) (cfg : Config) (start end_ : Time)
    (chunkSize : Duration) (hsize : 0 < chunkSize) (fuel : Nat) (a b : Time)
    (req : HttpRequest)
    (hmem : Event.fetch a b req ∈ (backfill w cfg start end_ chunkSize fuel).state.trace) :
    a < b ∧ req.body.From = UnixMilli a ∧ req.body.To = UnixMilli b ∧
      req.body.From ≤ req.body.To ∧
      (Millisecond ≤ b - a → req.body.From < req.body.To) ∧
      (Millisecond ∣ start → Millisecond ∣ end_ → Millisecond ∣ chunkSize →
        req.body.From < req.body.To) := by
  have h1 := backfillLoop_fetch_mem w cfg end_ chunkSize (fun _ => True) (fun _ _ _ => trivial)
    fuel _ trivial a b req hmem
  rcases h1 with h1 | ⟨-, hlt, rfl, rfl⟩
  · simp at h1
  · have hab := lt_chunkEndOf a end_ chunkSize hsize hlt
    refine ⟨hab, rfl, rfl, UnixMilli_mono (le_of_lt hab), UnixMilli_lt_of_millisecond,
      fun hs he hc => ?_⟩
    have h2 := backfillLoop_fetch_mem w cfg end_ chunkSize (fun c => Millisecond ∣ c)
      (fun c hc' _ => chunkEndOf_aligned c end_ chunkSize hc' he hc) fuel
      { current := start, totalReadings := 0, tick := 0, trace := [] } hs a _ _ hmem
    rcases h2 with h2 | ⟨ha, -, -, -⟩
    · simp at h2
    · exact UnixMilli_lt_of_aligned hab ha (chunkEndOf_aligned a end_ chunkSize ha he hc)

/-- C10 as amended, at the first chunk of the range of 10 ms from the epoch in chunks of
4 ms: the request carries `From = 0` and `To = 4`. -/
theorem backfill_request_bounds_witness :
    ((0 : Int) < 4 * Millisecond ∧
      Event.fetch 0 (4 * Millisecond) (buildRequest sampleConfig 0 (4 * Millisecond)) ∈
        (backfill calmWorld sampleConfig 0 (10 * Millisecond) (4 * Millisecond) 3).state.trace) ∧
      (buildRequest sampleConfig 0 (4 * Millisecond)).body.From = 0 ∧
      (buildRequest sampleConfig 0 (4 * Millisecond)).body.To = 4 ∧
      (buildRequest sampleConfig 0 (4 * Millisecond)).body.From <
        (buildRequest sampleConfig 0 (4 * Millisecond)).body.To := by
  have h := backfill_request_bounds calmWorld sampleConfig 0 (10 * Millisecond)
    (4 * Millisecond) (by decide) 3 0 (4 * Millisecond)
    (buildRequest sampleConfig 0 (4 * Millisecond)) (by decide)
  exact ⟨⟨by decide, by decide⟩, by decide, by decide,
    h.2.2.2.2.2 (by decide) (by decide) (by decide)⟩

/-- C10 fails on the code: `-start 2024-01-01` with the default `-chunk 24`, run half a
millisecond after midnight UTC of that day, gives one chunk of 500000 ns whose request
carries `From = To`. -/
theorem backfill_request_not_strict :
    (1704067200000000000 : Int) < 1704067200000500000 ∧ 0 < chunkSizeOfFlag 24 ∧
      ∃ req ∈ requests (backfill calmWorld sampleConfig 1704067200000000000
          1704067200000500000 (chunkSizeOfFlag 24) 1).state.trace,
        ¬ req.body.From < req.body.To :=
  ⟨by decide, by decide, buildRequest sampleConfig 1704067200000000000 1704067200000500000,
    by decide, by decide⟩

end WaterHero
